import Mathlib

/-!
Shallow embedding of the crashla preprocessing pipeline (`preprocess.py`).

Rows arrive as parsed records (CSV parsing is an external collaborator's
concern, per the spec); Python dicts are modelled as association lists in
insertion order, Python floats as exact rationals, and every `must(...)`
assertion or raisable lookup as an `Option` result where `none` marks the
aborted run.
-/

attribute [local semireducible] Rat.add Rat.mul Rat.inv Rat.sub

namespace Crashla

/-! ### Python string primitives

The Lean core `String` functions (`trim`, `take`, `toNat?`, `splitOn`) are
defined by well-founded recursion on byte positions and do not reduce inside
the kernel, so the Python string operations the pipeline uses are embedded
here directly on the character list of the string. -/

/-- Python `str.strip()` (both-ends whitespace removal) on a character list. -/
def stripChars (cs : List Char) : List Char :=
  ((cs.dropWhile Char.isWhitespace).reverse.dropWhile Char.isWhitespace).reverse

/-- Python `str.strip()`. -/
def pyStrip (s : String) : String := ⟨stripChars s.data⟩

/-- Python slicing `s[:n]` (by characters). -/
def strTake (s : String) (n : ℕ) : String := ⟨s.data.take n⟩

/-- Python slicing `s[n:]` (by characters). -/
def strDrop (s : String) (n : ℕ) : String := ⟨s.data.drop n⟩

/-- Value of a list of decimal digits. -/
def digitsVal (cs : List Char) : ℕ :=
  cs.foldl (fun n c => n * 10 + (c.toNat - '0'.toNat)) 0

/-- Python `str.isdigit()` restricted to ASCII digits. -/
def pyIsDigit (s : String) : Bool := !s.data.isEmpty && s.data.all Char.isDigit

/-- Python `int(s)` on the digit strings this pipeline feeds it; `none` models
the `ValueError` raised on anything else. -/
def pyInt? (s : String) : Option ℕ :=
  if pyIsDigit s then some (digitsVal s.data) else none

/-- The worker of `pySplitDash`: accumulates the current fragment (reversed). -/
def splitDashAux (cur : List Char) : List Char → List (List Char)
  | [] => [cur.reverse]
  | c :: t => if c = '-' then cur.reverse :: splitDashAux [] t
              else splitDashAux (c :: cur) t

/-- Python `s.split("-")`. -/
def pySplitDash (s : String) : List String :=
  (splitDashAux [] s.data).map (fun cs => ⟨cs⟩)

/-- Association-list lookup, mirroring Python `dict.get` / `in`. -/
def alookup {α β : Type} [DecidableEq α] (k : α) : List (α × β) → Option β
  | [] => none
  | (k₁, v) :: t => if k₁ = k then some v else alookup k t

/-- Association-list assignment `d[k] = v`: update in place, else append. -/
def assocSet {α β : Type} [DecidableEq α] (l : List (α × β)) (k : α) (v : β) :
    List (α × β) :=
  match l with
  | [] => [(k, v)]
  | (k₁, v₁) :: t => if k₁ = k then (k, v) :: t else (k₁, v₁) :: assocSet t k v

/-- Lookup with a default, mirroring Python `dict.get(k, d)`. -/
def alookupD {α β : Type} [DecidableEq α] (l : List (α × β)) (k : α) (d : β) : β :=
  (alookup k l).getD d

/-! ### Window/Coverage Compositor: `month_coverage` (preprocess.py lines 204-215) -/

/-- Gregorian leap-year test, as used by Python `calendar.monthrange`. -/
def isLeapYear (y : ℕ) : Bool := y % 4 = 0 && (y % 100 ≠ 0 || y % 400 = 0)

/-- Number of days of a calendar month (`calendar.monthrange(year, mon)[1]`). -/
def daysInMonth (y m : ℕ) : ℕ :=
  if m = 2 then (if isLeapYear y then 29 else 28)
  else if m = 4 ∨ m = 6 ∨ m = 9 ∨ m = 11 then 30
  else 31

/-- Embeds `month_coverage(month_str)`: fraction of the month inside the NHTSA
observation window.  `none` models the `ValueError` Python `int()` would raise
on a malformed month string. -/
def month_coverage (s : String) : Option ℚ :=
  match pyInt? (strTake s 4), pyInt? (strTake (strDrop s 5) 2) with
  | some y, some m =>
      some (if s = "2026-01" then (15 : ℚ) / (daysInMonth y m) else 1)
  | _, _ => none

/-! ### Fault-Model Reconciler: `parse_fault_csv` (preprocess.py lines 156-176) -/

/-- One row of a fault-estimate CSV, already parsed (`faultfrac` is the value
`float(row["faultfrac"])` produced; rationals model the finite floats, so the
`math.isfinite` assertion holds by construction). -/
structure FRow where
  reportID : String
  faultfrac : ℚ
  reasoning : String
deriving DecidableEq

/-- The record stored per report identifier by `parse_fault_csv`. -/
structure FItem where
  faultfrac : ℚ
  reasoning : String
deriving DecidableEq

/-- The per-row loop of `parse_fault_csv`; `none` models a failed `must`. -/
def parseFaultAux (data : List (String × FItem)) :
    List FRow → Option (List (String × FItem))
  | [] => some data
  | row :: t =>
      let rid := pyStrip row.reportID
      if rid = "" then none
      else
        let faultfrac := row.faultfrac
        if ¬(0 ≤ faultfrac ∧ faultfrac ≤ 1) then none
        else
          let item : FItem := ⟨faultfrac, pyStrip row.reasoning⟩
          match alookup rid data with
          | some existing => if existing = item then parseFaultAux data t else none
          | none => parseFaultAux (data ++ [(rid, item)]) t

/-- Embeds `parse_fault_csv(path)` on the parsed rows of the file.  Returns the
identifier-keyed table, or `none` when any `must` assertion fires (empty file,
blank identifier, fault fraction out of range, or a duplicated identifier whose
payload differs from the first occurrence). -/
def parse_fault_csv (rows : List FRow) : Option (List (String × FItem)) :=
  if rows.isEmpty then none else parseFaultAux [] rows

/-! ### Report-Type Classifier & Coverage Estimator
(`incident_coverage`, preprocess.py lines 189-366)

`round(x, 4)` is embedded as exact round-half-to-even on rationals (Python's
documented rounding mode); every `must` failure or raisable dict/format error
is an `Option.none`. -/

/-- One raw NHTSA CSV row, restricted to the fields the coverage estimator and
the deduplicator read.  `reportVersion` is the already-converted
`int(r["Report Version"])` (main validates it as a digit string before any of
this code runs). -/
structure NRow where
  sameIncidentId : String
  reportVersion : ℕ
  reportingEntity : String
  incidentDate : String
  reportType : String
  submissionDate : String
  driverOperatorType : String
deriving DecidableEq

/-- `MONTH_ABBR_TO_NUM` (preprocess.py lines 192-196). -/
def MONTH_ABBR_TO_NUM : List (String × String) :=
  [("JAN", "01"), ("FEB", "02"), ("MAR", "03"), ("APR", "04"),
   ("MAY", "05"), ("JUN", "06"), ("JUL", "07"), ("AUG", "08"),
   ("SEP", "09"), ("OCT", "10"), ("NOV", "11"), ("DEC", "12")]

/-- `nhtsa_month_to_iso(label)`: convert `"JAN-2026"` to `"2026-01"`.  `none`
models the exceptions Python raises on a label without exactly one dash or
with an unknown month abbreviation. -/
def nhtsa_month_to_iso (label : String) : Option String :=
  match pySplitDash label with
  | [abbr, year] => (alookup abbr MONTH_ABBR_TO_NUM).map (fun n => year ++ "-" ++ n)
  | _ => none

/-- `COMPANY_SHORT` (preprocess.py lines 90-94). -/
def COMPANY_SHORT : List (String × String) :=
  [("Waymo LLC", "Waymo"), ("Tesla, Inc.", "Tesla"), ("Zoox, Inc.", "Zoox")]

/-- `COMPANY_SHORT.get(name, name)`. -/
def companyShort (name : String) : String := (alookup name COMPANY_SHORT).getD name

def NHTSA_WINDOW_END : String := "2026-01-15"

/-- `int(NHTSA_WINDOW_END[:4])` (a constant that parses, so `getD` is safe). -/
def windowEndYear : ℕ := (pyInt? (strTake NHTSA_WINDOW_END 4)).getD 0

/-- `int(NHTSA_WINDOW_END[5:7])`. -/
def windowEndMon : ℕ := (pyInt? (strTake (strDrop NHTSA_WINDOW_END 5) 2)).getD 0

/-- Python `f"{n:02d}"` for the month numbers used here. -/
def pad2 (n : ℕ) : String := if n < 10 then "0" ++ toString n else toString n

/-- `last_month`: the last month in the NHTSA window, as `"2026-01"`. -/
def lastMonth : String := toString windowEndYear ++ "-" ++ pad2 windowEndMon

/-- `monthly_deadline_month`: the month after the window's last month, in which
Monthly reports for the last month fall due. -/
def monthlyDeadlineMonth : String :=
  let nextMon := windowEndMon + 1
  if nextMon > 12 then toString (windowEndYear + 1) ++ "-" ++ pad2 1
  else toString windowEndYear ++ "-" ++ pad2 nextMon

/-- The set of submission months present in the dataset (lines 233-237);
`none` models a raising `nhtsa_month_to_iso`. -/
def submissionMonths : List NRow → Option (List String)
  | [] => some []
  | r :: t =>
      let sub := pyStrip r.submissionDate
      if sub = "" then submissionMonths t
      else
        match nhtsa_month_to_iso sub with
        | none => none
        | some m => (submissionMonths t).map (m :: ·)

/-- `last_month_incomplete`: Monthly reports for the last month are
structurally missing when no submissions from the deadline month exist. -/
def lastMonthIncomplete (rows : List NRow) : Option Bool :=
  (submissionMonths rows).map (fun ms => !(ms.contains monthlyDeadlineMonth))

/-- `none_rows`: filter to `Driver / Operator Type == "None"` (no strip,
matching the code). -/
def noneRows (rows : List NRow) : List NRow :=
  rows.filter (fun r => r.driverOperatorType == "None")

/-- The per-incident record of the estimator's dedup pass (lines 265-287):
latest-version company/month plus the earliest-version report type. -/
structure CovRec where
  ver : ℕ
  minVer : ℕ
  company : String
  month : String
  reportType : String
deriving DecidableEq

/-- In-place update of an existing `by_incident[iid]` record (lines 279-287):
a higher version overwrites company/month, a lower version overwrites the
original report type. -/
def updCovRec (iid : String) (ver : ℕ) (company month rt : String) :
    List (String × CovRec) → List (String × CovRec)
  | [] => []
  | (k, c) :: t =>
      if k = iid then
        let c₁ := if ver > c.ver then { c with ver := ver, company := company, month := month } else c
        let c₂ := if ver < c₁.minVer then { c₁ with minVer := ver, reportType := rt } else c₁
        (k, c₂) :: t
      else (k, c) :: updCovRec iid ver company month rt t

/-- One step of the estimator's dedup loop (lines 266-287). -/
def covUpd (acc : List (String × CovRec)) (r : NRow) : Option (List (String × CovRec)) :=
  match nhtsa_month_to_iso (pyStrip r.incidentDate) with
  | none => none
  | some month =>
      let company := companyShort (pyStrip r.reportingEntity)
      let ver := r.reportVersion
      let rt := pyStrip r.reportType
      match alookup r.sameIncidentId acc with
      | none => some (acc ++ [(r.sameIncidentId, ⟨ver, ver, company, month, rt⟩)])
      | some _ => some (updCovRec r.sameIncidentId ver company month rt acc)

def dedupCovAux (acc : List (String × CovRec)) :
    List NRow → Option (List (String × CovRec))
  | [] => some acc
  | r :: t =>
      match covUpd acc r with
      | none => none
      | some acc₁ => dedupCovAux acc₁ t

/-- `by_incident` of the coverage estimator: dedup of the driverless rows, in
dict insertion order. -/
def dedupCov (rows : List NRow) : Option (List (String × CovRec)) :=
  dedupCovAux [] (noneRows rows)

/-- `QUICK_TYPES` (line 297). -/
def QUICK_TYPES : List String := ["1-Day", "5-Day", "Update", "10-Day Update"]

/-- Counter map `(company, month) -> (five, total)`. -/
abbrev Counts := List ((String × String) × (ℕ × ℕ))

/-- `counts[key]["total"] += 1` plus the conditional `["five"] += 1`, creating
the entry when absent (lines 304-309). -/
def bump (key : String × String) (q : Bool) : Counts → Counts
  | [] => [(key, ((if q then 1 else 0), 1))]
  | (k, (f, t)) :: rest =>
      if k = key then (k, ((if q then f + 1 else f), t + 1)) :: rest
      else (k, (f, t)) :: bump key q rest

/-- One step of the tally loop (lines 291-309); `none` is the `must` firing on
an original report type that is neither quick (`is_quick`) nor Monthly
(`is_monthly`). -/
def tallyUpd (counts : Counts) (rec : CovRec) : Option Counts :=
  if !(QUICK_TYPES.contains rec.reportType || rec.reportType == "Monthly") then none
  else some (bump (rec.company, rec.month) (QUICK_TYPES.contains rec.reportType) counts)

def tallyAux (counts : Counts) : List CovRec → Option Counts
  | [] => some counts
  | rec :: t =>
      match tallyUpd counts rec with
      | none => none
      | some counts₁ => tallyAux counts₁ t

/-- The 5-Day-fraction tally over the deduped incident records. -/
def tallyCounts (recs : List CovRec) : Option Counts := tallyAux [] recs

/-- Lexicographic code-point comparison of character lists (Python `str`
ordering). -/
def strLeChars : List Char → List Char → Bool
  | [], _ => true
  | _ :: _, [] => false
  | a :: as, b :: bs =>
      if a.toNat < b.toNat then true
      else if b.toNat < a.toNat then false
      else strLeChars as bs

/-- Python string `<=`. -/
def strLe (a b : String) : Bool := strLeChars a.data b.data

/-- Insertion step of the string sort standing in for Python `sorted`. -/
def insertStr (x : String) : List String → List String
  | [] => [x]
  | y :: t => if strLe x y then x :: y :: t else y :: insertStr x t

/-- Sorted list of strings (Python `sorted`). -/
def sortStrings (l : List String) : List String := l.foldr insertStr []

/-- First-occurrence dedup (Python `set`, whose final order is irrelevant
because the result is sorted). -/
def dedupStrAux (seen : List String) : List String → List String
  | [] => []
  | x :: t => if seen.contains x then dedupStrAux seen t
              else x :: dedupStrAux (x :: seen) t

def dedupStr (l : List String) : List String := dedupStrAux [] l

/-- `companies = sorted(set(k[0] for k in counts))` (line 313). -/
def companies (counts : Counts) : List String :=
  sortStrings (dedupStr (counts.map (fun e => e.1.1)))

/-- `five_day_fracs[company]` (lines 315-324): historical per-month 5-Day
ratios from complete months that have Monthly reports and at least 3
incidents. -/
def fiveDayFracs (counts : Counts) (company : String) : List ℚ :=
  counts.filterMap (fun e =>
    if e.1.1 ≠ company ∨ e.1.2 = lastMonth then none
    else if e.2.2 > e.2.1 ∧ e.2.2 ≥ 3 then some (mkRat ((e.2.1 : ℕ) : ℤ) e.2.2)
    else none)

/-- One step of the `last_month_has_monthly` loop (lines 330-332): a counts
entry for the last month records whether its total exceeds its quick count. -/
def lmhmStep (acc : List (String × Bool)) (e : (String × String) × (ℕ × ℕ)) :
    List (String × Bool) :=
  if e.1.2 = lastMonth then assocSet acc e.1.1 (decide (e.2.2 > e.2.1)) else acc

/-- `last_month_has_monthly` (lines 329-332). -/
def lastMonthHasMonthly (counts : Counts) : List (String × Bool) :=
  counts.foldl lmhmStep []

/-- The `counts` invariant: every tallied five-count is at most its total. -/
def countsWF (counts : Counts) : Prop :=
  ∀ k f t, alookup k counts = some (f, t) → f ≤ t

/-- Distinctness of the keys of a counter map (automatic for Python dicts). -/
def keysNodup (counts : Counts) : Prop :=
  (counts.map (fun e => e.1)).Nodup

/-- Round-half-to-even of a rational to an integer (Python `round`). -/
def rhe (z : ℚ) : ℤ :=
  if z - ⌊z⌋ < 1/2 then ⌊z⌋
  else if 1/2 < z - ⌊z⌋ then ⌊z⌋ + 1
  else if ⌊z⌋ % 2 = 0 then ⌊z⌋ else ⌊z⌋ + 1

/-- Python `round(q, 4)`. -/
def round4 (q : ℚ) : ℚ := (rhe (q * 10000) : ℚ) / 10000

/-- The sum of a list of rationals (`sum(fracs)`). -/
def qsum (l : List ℚ) : ℚ := l.foldl (· + ·) 0

/-- Python `min(l)` for a nonempty list given as head and tail. -/
def qminList (x : ℚ) (l : List ℚ) : ℚ := l.foldl (fun a b => if a ≤ b then a else b) x

/-- Python `max(l)` for a nonempty list given as head and tail. -/
def qmaxList (x : ℚ) (l : List ℚ) : ℚ := l.foldl (fun a b => if b > a then b else a) x

/-- The `must(0 < p_lo <= p_best <= p_hi <= 1)` guard followed by the rounded
triple `(round(p_best, 4), round(p_lo, 4), round(p_hi, 4))` (lines 354-361). -/
def mustTriple (pBest pLo pHi : ℚ) : Option (ℚ × ℚ × ℚ) :=
  if 0 < pLo ∧ pLo ≤ pBest ∧ pBest ≤ pHi ∧ pHi ≤ 1 then
    some (round4 pBest, round4 pLo, round4 pHi)
  else none

/-- The coverage triple assigned to one company's last window month
(lines 335-364): full coverage for early filers and for companies without
historical data, otherwise (mean, min, max) of the historical ratios rounded
to 4 decimals; `none` is the `must` on `0 < lo <= best <= hi <= 1` firing. -/
def tripleFor (counts : Counts) (company : String) : Option (ℚ × ℚ × ℚ) :=
  if alookupD (lastMonthHasMonthly counts) company false then some (1, 1, 1)
  else
    match fiveDayFracs counts company with
    | [] => some (1, 1, 1)
    | f :: rest =>
        mustTriple (qsum (f :: rest) / (f :: rest).length)
          (qminList f rest) (qmaxList f rest)

/-- The result-building loop over `companies` (lines 334-364). -/
def buildResult (counts : Counts) : List String → Option (List ((String × String) × (ℚ × ℚ × ℚ)))
  | [] => some []
  | co :: t =>
      match tripleFor counts co with
      | none => none
      | some tr => (buildResult counts t).map (((co, lastMonth), tr) :: ·)

/-- The last-month coverage map computed from a finished tally. -/
def coverageFromCounts (counts : Counts) : Option (List ((String × String) × (ℚ × ℚ × ℚ))) :=
  buildResult counts (companies counts)

/-- Embeds `incident_coverage(nhtsa_rows)`: `{(company, iso_month): (best, lo,
hi)}`, empty when all months are complete; `none` models any raised error. -/
def incident_coverage (rows : List NRow) :
    Option (List ((String × String) × (ℚ × ℚ × ℚ))) :=
  match lastMonthIncomplete rows with
  | none => none
  | some false => some []
  | some true =>
      match dedupCov rows with
      | none => none
      | some entries =>
          match tallyCounts (entries.map (·.2)) with
          | none => none
          | some counts => coverageFromCounts counts

/-! ### The final fault-coverage check of `main` (preprocess.py lines 589-594) -/

/-- Embeds the check `missing_fault = incident_ids - fault_ids;
must(len(missing_fault) == 0, ...)`: `true` iff the run survives it. -/
def faultCoverageCheckOk (incidentIds faultIds : List String) : Bool :=
  (incidentIds.filter (fun i => !(faultIds.contains i))).isEmpty

/-! ### Concrete inputs used by the claim theorems -/

/-- A row of the C1 scenario: version-1 filing by Waymo with no submission
date, in driverless operation. -/
def c1row (iid date rt : String) : NRow := ⟨iid, 1, "Waymo LLC", date, rt, "", "None"⟩

/-- The C1 scenario input: four historical months with at least 3 incidents
each and quick-ratios 4/5, 9/10, 7/10 and 3/3 = 1, and a final window month
(JAN-2026) with a single quick filing and no periodic filing.  All submission
dates are absent, so the final month is structurally incomplete. -/
def c1rows : List NRow :=
  [c1row "a1" "JUN-2025" "5-Day", c1row "a2" "JUN-2025" "5-Day",
   c1row "a3" "JUN-2025" "5-Day", c1row "a4" "JUN-2025" "5-Day",
   c1row "a5" "JUN-2025" "Monthly",
   c1row "b1" "JUL-2025" "5-Day", c1row "b2" "JUL-2025" "5-Day",
   c1row "b3" "JUL-2025" "5-Day", c1row "b4" "JUL-2025" "5-Day",
   c1row "b5" "JUL-2025" "5-Day", c1row "b6" "JUL-2025" "5-Day",
   c1row "b7" "JUL-2025" "5-Day", c1row "b8" "JUL-2025" "5-Day",
   c1row "b9" "JUL-2025" "5-Day", c1row "b10" "JUL-2025" "Monthly",
   c1row "c1" "AUG-2025" "5-Day", c1row "c2" "AUG-2025" "5-Day",
   c1row "c3" "AUG-2025" "5-Day", c1row "c4" "AUG-2025" "5-Day",
   c1row "c5" "AUG-2025" "5-Day", c1row "c6" "AUG-2025" "5-Day",
   c1row "c7" "AUG-2025" "5-Day", c1row "c8" "AUG-2025" "Monthly",
   c1row "c9" "AUG-2025" "Monthly", c1row "c10" "AUG-2025" "Monthly",
   c1row "d1" "SEP-2025" "5-Day", c1row "d2" "SEP-2025" "5-Day",
   c1row "d3" "SEP-2025" "5-Day",
   c1row "e1" "JAN-2026" "5-Day"]

/-- The counts tally exhibiting C4's rounding failure: one historical month
with 100000 incidents, exactly one of which was originally quick-filed. -/
def c4cex : Counts := [(("A", "2025-06"), (1, 100000))]

/-- The counts tally exhibiting C10's rounding failure: one historical month
with 100000 incidents, all but one originally quick-filed. -/
def c10cex : Counts := [(("A", "2025-06"), (99999, 100000))]

/-- Witness tally for the amended C4: one historical month with 4 incidents,
2 of them quick. -/
def c4wit : Counts := [(("A", "2025-06"), (2, 4))]

/-- Witness tally for the amended C10. -/
def c10wit : Counts := [(("B", "2025-06"), (2, 4))]

/-- Witness rows for C6: a single driverless incident in the final window
month whose original filing is of periodic (Monthly) type; no submission
months are present, so the final month is incomplete. -/
def c6rows : List NRow := [⟨"m1", 1, "Waymo LLC", "JAN-2026", "Monthly", "", "None"⟩]

/-! ### Incident Deduplicator of `main` (preprocess.py lines 532-538)

`main` applies this to `none_rows` (the rows already filtered to
`Driver / Operator Type == "None"`); the spec's deduplication contract (§4.3)
is likewise stated on the pre-filtered rows. -/

/-- One step of the dedup dict update: `if iid not in by_incident or ver >
by_incident[iid]["_ver"]: by_incident[iid] = {"_ver": ver, "_row": r}`.
Storing the row alone suffices: `_ver` is `r.reportVersion`. -/
def mainUpd (acc : List (String × NRow)) (r : NRow) : List (String × NRow) :=
  match alookup r.sameIncidentId acc with
  | none => assocSet acc r.sameIncidentId r
  | some cur =>
      if r.reportVersion > cur.reportVersion then assocSet acc r.sameIncidentId r
      else acc

/-- `by_incident`: group rows by `Same Incident ID`, keeping the row of
highest `Report Version` seen so far, in dict insertion order. -/
def dedupMain (rows : List NRow) : List (String × NRow) := rows.foldl mainUpd []

/-- The per-group selection the dict update implements: keep the stored row
unless the new row's version is strictly higher. -/
def selRow : Option NRow → NRow → Option NRow
  | none, r => some r
  | some cur, r => if r.reportVersion > cur.reportVersion then some r else some cur

/-- C5 witness rows: one incident "X" filed at versions 1 and 2, in the two
possible input orders. -/
def c5rowA : NRow := ⟨"X", 1, "Waymo LLC", "JUN-2025", "5-Day", "", "None"⟩

def c5rowB : NRow := ⟨"X", 2, "Waymo LLC", "JUN-2025", "Update", "", "None"⟩

def c5rows1 : List NRow := [c5rowA, c5rowB]

def c5rows2 : List NRow := [c5rowB, c5rowA]

/-! ### Schema Reconciler: `_normalize_archive_row` (preprocess.py lines 111-127)

An archive row is a partial map from column names to values (a Python dict);
an absent key is `none`. -/

/-- `ARCHIVE_COLUMN_MAP` (lines 113-119), as (archive name, current name). -/
def ARCHIVE_COLUMN_MAP : List (String × String) :=
  [("SV Any Air Bags Deployed?", "Any Air Bags Deployed?"),
   ("SV Was Vehicle Towed?", "Was Any Vehicle Towed?"),
   ("SV Were All Passengers Belted?", "Were All Passengers Belted?"),
   ("Weather - Fog/Smoke", "Weather - Fog/Smoke/Haze"),
   ("Weather - Unknown", "Weather - Unk - See Narrative")]

/-- Keep the current value when present, else copy the archive value:
the effect of `if current_key not in row and archive_key in row:
row[current_key] = row[archive_key]` at the current key. -/
def fillVal (cur archive : Option String) : Option String :=
  match cur with
  | some v => some v
  | none => archive

/-- One alias-fill step of `_normalize_archive_row` for the map entry
`p = (archive_key, current_key)`. -/
def fillStep (row : String → Option String) (p : String × String) :
    String → Option String :=
  fun k => if k = p.2 then fillVal (row p.2) (row p.1) else row k

/-- The loop of `_normalize_archive_row` over the column map, in dict order. -/
def fillList : List (String × String) → (String → Option String) →
    (String → Option String)
  | [], row => row
  | p :: t, row => fillList t (fillStep row p)

/-- Embeds `_normalize_archive_row(row)`. -/
def normalizeArchiveRow (row : String → Option String) : String → Option String :=
  fillList ARCHIVE_COLUMN_MAP row

/-- Witness archive row for C9: carries an archive-named airbag column and a
canonical `City` column. -/
def c9row : String → Option String :=
  fun k => if k = "SV Any Air Bags Deployed?" then some "Yes"
           else if k = "City" then some "Tempe" else none

/-! ### Row Validator of `main` (preprocess.py lines 414-525) -/

/-- A raw pre-validation row, restricted to the fields `main` validates.
`reportVersion` is still the raw string here (its digit check is part of the
validation). -/
structure RawRow where
  sameIncidentId : String
  incidentDate : String
  reportType : String
  driverOperatorType : String
  reportingEntity : String
  submissionDate : String
  reportVersion : String
deriving DecidableEq

/-- `EXPECTED_REPORT_TYPES` (lines 414-417). -/
def EXPECTED_REPORT_TYPES : List String :=
  ["1-Day", "5-Day", "10-Day Update", "Monthly", "Update",
   "No New or Updated Incident Reports"]

/-- `EXPECTED_DRIVER_TYPES` (lines 418-427). -/
def EXPECTED_DRIVER_TYPES : List String :=
  ["", "Consumer", "In-Vehicle (Commercial / Test)",
   "In-Vehicle and Remote (Commercial / Test)", "None", "Other, see Narrative",
   "Remote (Commercial / Test)", "Unknown"]

/-- `EXPECTED_COMPANIES` (lines 430-479). -/
def EXPECTED_COMPANIES : List String :=
  ["Ambarella", "Apollo Autonomous Driving USA", "Apple Inc.", "Argo AI",
   "Aurora Operations, Inc.", "AutoX Technologies Inc", "Avride Inc.",
   "Beep, Inc.", "Chrysler (FCA US, LLC)", "Cruise LLC",
   "Daimler Trucks North America, LLC", "Easymile Inc.", "First Transit",
   "Ford Motor Company", "General Motors, LLC", "Ghost Autonomy Inc.",
   "Hyundai Motor America", "Kia America, Inc.", "Kodiak Robotics",
   "Local Motors Industries", "Lucid USA, Inc.", "May Mobility",
   "Mercedes-Benz USA, LLC", "Mobileye Vision Technologies", "Motional",
   "NAVYA Inc.", "NVIDIA CORP", "Navistar, Inc.", "Nuro", "Ohmio, Inc.",
   "Oxbotica", "PACCAR Incorporated", "PlusAI Inc", "Pony.ai",
   "Robert Bosch, LLC", "Robotic Research", "Stack AV", "TORC Robotics, Inc.",
   "Tesla, Inc.", "Toyota Motor Engineering & Manufacturing",
   "Transdev Alternative Services", "TuSimple", "VinFast Auto, LLC",
   "Volkswagen Group of America, Inc.", "Volvo Car USA, LLC", "Waymo LLC",
   "WeRide Corp", "Zoox, Inc."]

/-- The diagnostic a failed `must` raises: message, row index, observed value,
and (for the allow-list checks) the expected set, sorted. -/
structure VErr where
  msg : String
  row : ℕ
  value : String
  expected : List String
deriving DecidableEq

/-- The regex `^[A-Z]{3}-\d{4}$` used for `Incident Date` and
`Report Submission Date`. -/
def dateFormatOk (s : String) : Bool :=
  match s.data with
  | [a, b, c, d, e, f, g, h] =>
      a.isUpper && b.isUpper && c.isUpper && d == '-' &&
      e.isDigit && f.isDigit && g.isDigit && h.isDigit
  | _ => false

/-- `if not iid or not idate: continue`: placeholder rows carry no data and
are dropped before validation. -/
def keepRow (r : RawRow) : Bool :=
  !(pyStrip r.sameIncidentId == "") && !(pyStrip r.incidentDate == "")

/-- The validation checks of `main`'s loop (lines 496-523) on one kept row,
in code order; `some e` is the first `must` that fires. -/
def rowErr (i : ℕ) (r : RawRow) : Option VErr :=
  if ¬(EXPECTED_REPORT_TYPES.contains (pyStrip r.reportType)) then
    some ⟨"unexpected Report Type", i, pyStrip r.reportType,
      sortStrings EXPECTED_REPORT_TYPES⟩
  else if ¬(EXPECTED_DRIVER_TYPES.contains (pyStrip r.driverOperatorType)) then
    some ⟨"unexpected Driver / Operator Type", i, pyStrip r.driverOperatorType,
      sortStrings EXPECTED_DRIVER_TYPES⟩
  else if ¬(EXPECTED_COMPANIES.contains (pyStrip r.reportingEntity)) then
    some ⟨"unexpected Reporting Entity", i, pyStrip r.reportingEntity,
      sortStrings EXPECTED_COMPANIES⟩
  else if ¬(dateFormatOk (pyStrip r.incidentDate)) then
    some ⟨"unexpected Incident Date format", i, pyStrip r.incidentDate, []⟩
  else if ¬((alookup ((pySplitDash (pyStrip r.incidentDate)).headD "")
      MONTH_ABBR_TO_NUM).isSome) then
    some ⟨"unknown month abbreviation in Incident Date", i,
      pyStrip r.incidentDate, []⟩
  else if pyStrip r.submissionDate ≠ "" ∧ ¬(dateFormatOk (pyStrip r.submissionDate)) then
    some ⟨"unexpected Report Submission Date format", i,
      pyStrip r.submissionDate, []⟩
  else if pyStrip r.submissionDate ≠ "" ∧
      ¬((alookup ((pySplitDash (pyStrip r.submissionDate)).headD "")
          MONTH_ABBR_TO_NUM).isSome) then
    some ⟨"unknown month abbreviation in Submission Date", i,
      pyStrip r.submissionDate, []⟩
  else if ¬(pyIsDigit (pyStrip r.reportVersion) ∧
      digitsVal (pyStrip r.reportVersion).data ≥ 1) then
    some ⟨"Report Version must be positive integer", i, pyStrip r.reportVersion, []⟩
  else none

/-- Whether a row passes all checks (index-independent). -/
def rowOk (r : RawRow) : Bool := (rowErr 0 r).isNone

/-- The validation loop (lines 490-525): `i` enumerates all rows, dropped
placeholders included; the first failing `must` aborts the run. -/
def validateAux : ℕ → List RawRow → Except VErr (List RawRow)
  | _, [] => .ok []
  | i, r :: t =>
      if keepRow r then
        match rowErr i r with
        | some e => .error e
        | none =>
            match validateAux (i + 1) t with
            | .error e => .error e
            | .ok out => .ok (r :: out)
      else validateAux (i + 1) t

/-- `valid_rows` computation of `main`: the surviving rows, or the first
validation failure. -/
def validateRows (rows : List RawRow) : Except VErr (List RawRow) :=
  validateAux 0 rows

/-- The first kept row that fails a check, with its enumeration index. -/
def firstBad (i : ℕ) : List RawRow → Option (ℕ × RawRow)
  | [] => none
  | r :: t =>
      if keepRow r ∧ (rowErr i r).isSome then some (i, r) else firstBad (i + 1) t

/-- Witness rows for C8: a placeholder row (empty incident id) with an
unrecognized report type and company, which must be dropped silently. -/
def c8placeholder : RawRow :=
  ⟨"", "", "Bogus", "", "NewCo Inc.", "JUL-2025", "1"⟩

/-- Witness rows for C8: a fully valid kept row. -/
def c8goodRow : RawRow :=
  ⟨"i1", "JUN-2025", "5-Day", "None", "Waymo LLC", "", "1"⟩

/-- Witness rows for C8: a kept row with a report type outside the allow-list. -/
def c8badRow : RawRow :=
  ⟨"i2", "JUN-2025", "Weekly", "None", "Waymo LLC", "", "1"⟩

def c8rows : List RawRow := [c8placeholder, c8goodRow]

def c8badRows : List RawRow := [c8placeholder, c8badRow]

theorem alookup_mem {α β : Type} [DecidableEq α] {k : α} {v : β} :
    ∀ {l : List (α × β)}, alookup k l = some v → (k, v) ∈ l := by
  intro l
  induction l with
  | nil => intro h; simp [alookup] at h
  | cons p t ih =>
    obtain ⟨k₁, v₁⟩ := p
    intro h
    rw [alookup] at h
    split at h
    · rename_i heq
      cases h
      subst heq
      exact List.mem_cons_self _ _
    · exact List.mem_cons_of_mem _ (ih h)

theorem alookup_assocSet_ne {α β : Type} [DecidableEq α] {k k₁ : α} (v : β)
    (hne : k₁ ≠ k) : ∀ (l : List (α × β)), alookup k (assocSet l k₁ v) = alookup k l := by
  intro l
  induction l with
  | nil => simp [assocSet, alookup, hne]
  | cons p t ih =>
    obtain ⟨k₂, v₂⟩ := p
    rw [assocSet]
    split
    · rename_i h2
      subst h2
      simp [alookup, hne]
    · rw [alookup, alookup, ih]

theorem filter_not_contains_isEmpty (faultIds : List String) :
    ∀ ids : List String,
      (ids.filter (fun i => !(faultIds.contains i))).isEmpty
        = ids.all (fun i => faultIds.contains i) := by
  intro ids
  induction ids with
  | nil => rfl
  | cons x t ih =>
    rw [List.filter_cons, List.all_cons]
    cases h : faultIds.contains x
    · simp [h]
    · simpa [h] using ih

/-- **C2.** The month-coverage function pro-rates only the *last* month of the
observation window: the first window month `2025-06` receives coverage 1, not
the day fraction 16/30 that the function's own docstring ("Both endpoints are
partial: June 15-30 and January 1-15") and the spec call for, while `2026-01`
does receive the pro-rated 15/31. -/
theorem c2_month_coverage_first_month_not_prorated :
    month_coverage "2025-06" = some 1 ∧
    month_coverage "2026-01" = some (15 / 31) ∧
    (1 : ℚ) ≠ 16 / 30 := by
  refine ⟨by decide, by decide, by norm_num⟩

/-- **C7.** Loading a fault table whose two rows for `"R1"` carry the identical
fraction 1/2 and reasoning `"X"` succeeds with a single merged record, while
changing the second row's fraction to 7/10 makes the load fail. -/
theorem c7_fault_duplicate_rows :
    parse_fault_csv [⟨"R1", 1/2, "X"⟩, ⟨"R1", 1/2, "X"⟩]
        = some [("R1", ⟨1/2, "X"⟩)] ∧
    parse_fault_csv [⟨"R1", 1/2, "X"⟩, ⟨"R1", 7/10, "X"⟩] = none := by
  constructor
  · decide
  · decide

/-- **C1 counterexample.** On the scenario input (four historical months with
at least 3 incidents and quick-ratios 4/5, 9/10, 7/10, 1, no periodic filing
in the final month), the estimator returns (4/5, 7/10, 9/10), not the claimed
(best = 0.85, lo = 0.7, hi = 1.0): the ratio-1 month contains no Monthly
report, so the code's `has_monthly` filter drops it from the historical
sample. -/
theorem c1_counterexample :
    incident_coverage c1rows
      = some [(("Waymo", "2026-01"), (4/5, 7/10, 9/10))] ∧
    ((4:ℚ)/5, (7:ℚ)/10, (9:ℚ)/10) ≠ ((17:ℚ)/20, 7/10, 1) := by
  constructor
  · decide
  · decide

/-- **C1 amended.** In the scenario, the month with quick-ratio 1 is excluded
from the historical sample (it has no periodic filing, so the code cannot see
that it is complete), and the coverage triple for the final month is the
(mean, min, max) of the remaining ratios: (best = 0.8, lo = 0.7, hi = 0.9). -/
theorem c1_amended_scenario :
    incident_coverage c1rows
      = some [(("Waymo", "2026-01"), (4/5, 7/10, 9/10))] := by decide

/-- **C4 counterexample.** A non-fallback triple returned by the estimator can
violate `0 < lo`: with a single historical ratio 1/100000 the pre-rounding
assertion `0 < lo` passes, but `round(x, 4)` sends the returned triple to
(0, 0, 0).  The company is not an early filer and its historical sample is
nonempty, so this is the computed (non-fallback) path. -/
theorem c4_counterexample :
    coverageFromCounts c4cex = some [(("A", "2026-01"), (0, 0, 0))]
    ∧ alookupD (lastMonthHasMonthly c4cex) "A" false = false
    ∧ fiveDayFracs c4cex "A" ≠ []
    ∧ ¬(0 < (0:ℚ)) := by
  refine ⟨by decide, by decide, by decide, by decide⟩

/-- **C10 counterexample.** A coverage triple computed from historical ratios
can have hi = 1: the single historical ratio 99999/100000 is strictly below 1,
but `round(x, 4)` rounds the returned triple up to (1, 1, 1) even though the
company is not an early filer and its historical sample is nonempty. -/
theorem c10_counterexample :
    coverageFromCounts c10cex = some [(("A", "2026-01"), (1, 1, 1))]
    ∧ alookupD (lastMonthHasMonthly c10cex) "A" false = false
    ∧ fiveDayFracs c10cex "A" ≠ []
    ∧ ¬((1:ℚ) < 1) := by
  refine ⟨by decide, by decide, by decide, by decide⟩

theorem rhe_ge_floor (z : ℚ) : ⌊z⌋ ≤ rhe z := by
  unfold rhe
  split_ifs <;> omega

theorem rhe_le_floor_add_one (z : ℚ) : rhe z ≤ ⌊z⌋ + 1 := by
  unfold rhe
  split_ifs <;> omega

theorem rhe_mono {x y : ℚ} (h : x ≤ y) : rhe x ≤ rhe y := by
  have hf : ⌊x⌋ ≤ ⌊y⌋ := Int.floor_le_floor h
  rcases lt_or_eq_of_le hf with hlt | heq
  · calc rhe x ≤ ⌊x⌋ + 1 := rhe_le_floor_add_one x
      _ ≤ ⌊y⌋ := by omega
      _ ≤ rhe y := rhe_ge_floor y
  · unfold rhe
    rw [← heq]
    split_ifs <;> first | omega | linarith

theorem round4_mono {x y : ℚ} (h : x ≤ y) : round4 x ≤ round4 y := by
  unfold round4
  have h1 : rhe (x * 10000) ≤ rhe (y * 10000) := rhe_mono (by linarith)
  have h2 : ((rhe (x * 10000) : ℤ) : ℚ) ≤ ((rhe (y * 10000) : ℤ) : ℚ) := by
    exact_mod_cast h1
  gcongr

theorem round4_zero : round4 0 = 0 := by
  norm_num [round4, rhe]

theorem round4_one : round4 1 = 1 := by
  norm_num [round4, rhe]

theorem mustTriple_eq_some {pBest pLo pHi : ℚ} {t : ℚ × ℚ × ℚ}
    (h : mustTriple pBest pLo pHi = some t) :
    (0 < pLo ∧ pLo ≤ pBest ∧ pBest ≤ pHi ∧ pHi ≤ 1) ∧
      t = (round4 pBest, round4 pLo, round4 pHi) := by
  unfold mustTriple at h
  split_ifs at h with hc
  · cases h
    exact ⟨hc, rfl⟩

theorem buildResult_mem {counts : Counts} :
    ∀ {l : List String} {res}, buildResult counts l = some res →
      ∀ {e}, e ∈ res →
        ∃ co, co ∈ l ∧ e.1 = (co, lastMonth) ∧ tripleFor counts co = some e.2 := by
  intro l
  induction l with
  | nil =>
    intro res h e he
    cases h
    simp at he
  | cons co t ih =>
    intro res h e he
    rw [buildResult] at h
    cases htr : tripleFor counts co with
    | none => rw [htr] at h; cases h
    | some tr =>
      rw [htr] at h
      cases hbr : buildResult counts t with
      | none => rw [hbr] at h; cases h
      | some res₁ =>
        rw [hbr] at h
        simp only [Option.map_some'] at h
        cases h
        rcases List.mem_cons.mp he with he₁ | he₁
        · subst he₁
          exact ⟨co, List.mem_cons_self _ _, rfl, htr⟩
        · obtain ⟨co₁, hco₁, he₂, htr₁⟩ := ih hbr he₁
          exact ⟨co₁, List.mem_cons_of_mem _ hco₁, he₂, htr₁⟩

/-- **C4 amended.** Every coverage triple (best, lo, hi) the estimator
returns — fallback or computed — satisfies `0 ≤ lo ≤ best ≤ hi ≤ 1`; the
*pre-rounding* values of a computed triple satisfy the stricter
`0 < lo ≤ best ≤ hi ≤ 1` (that is the asserted invariant), but rounding to 4
decimals can collapse a positive lo to 0, so only the non-strict lower bound
survives to the returned triple. -/
theorem c4_amended_triple_ordered (counts : Counts)
    (res : List ((String × String) × (ℚ × ℚ × ℚ))) (k : String × String)
    (best lo hi : ℚ)
    (hres : coverageFromCounts counts = some res)
    (hk : alookup k res = some (best, lo, hi)) :
    0 ≤ lo ∧ lo ≤ best ∧ best ≤ hi ∧ hi ≤ 1 := by
  have hmem := alookup_mem hk
  obtain ⟨co, -, -, htr⟩ := buildResult_mem hres hmem
  rw [tripleFor] at htr
  split_ifs at htr with hearly
  · cases htr
    norm_num
  · cases hfr : fiveDayFracs counts co with
    | nil =>
      rw [hfr] at htr
      cases htr
      norm_num
    | cons f rest =>
      rw [hfr] at htr
      obtain ⟨⟨h1, h2, h3, h4⟩, ht⟩ := mustTriple_eq_some htr
      cases ht
      refine ⟨?_, round4_mono h2, round4_mono h3, ?_⟩
      · have h0 := round4_mono (le_of_lt h1)
        rwa [round4_zero] at h0
      · have hone := round4_mono h4
        rwa [round4_one] at hone

/-- Witness: the amended C4 theorem applied to the concrete tally `c4wit`,
whose returned triple is (1/2, 1/2, 1/2). -/
theorem c4_amended_triple_ordered_witness :
    (0:ℚ) ≤ 1/2 ∧ (1/2:ℚ) ≤ 1/2 ∧ (1/2:ℚ) ≤ 1/2 ∧ (1/2:ℚ) ≤ 1 :=
  c4_amended_triple_ordered c4wit [(("A", "2026-01"), (1/2, 1/2, 1/2))]
    ("A", "2026-01") (1/2) (1/2) (1/2) (by decide) (by decide)

/-- **C10 amended.** Every historical per-month ratio the estimator collects
is strictly below 1 (a month only contributes when its total strictly exceeds
its quick count), so the pre-rounding max of the historical sample is strictly
below 1; the *returned* hi, however, is rounded to 4 decimals and can reach
exactly 1 for ratios above 0.99995, so a returned full-coverage value does not
only arise from the early-filer and no-data fallback paths. -/
theorem c10_amended_historical_ratios_lt_one (counts : Counts) (c : String)
    (f : ℚ) (hf : f ∈ fiveDayFracs counts c) : f < 1 := by
  unfold fiveDayFracs at hf
  rw [List.mem_filterMap] at hf
  obtain ⟨e, -, he⟩ := hf
  split_ifs at he with h1 h2
  · cases he
    rw [Rat.mkRat_eq_div]
    have hpos : (0:ℚ) < (e.2.2 : ℚ) := by
      have h3 : 0 < e.2.2 := by omega
      exact_mod_cast h3
    rw [div_lt_one hpos]
    exact_mod_cast h2.1

/-- Witness: the amended C10 theorem applied to the concrete tally `c10wit`,
whose single historical ratio is 1/2. -/
theorem c10_amended_witness : (1/2 : ℚ) < 1 :=
  c10_amended_historical_ratios_lt_one c10wit "B" (1/2) (by decide)

/-- **C3 counterexample.** The final fault check accepts a run in which the
fault-estimate tables strictly contain the output identifiers: with output ids
`{R1}` and fault ids `{R1, R2}` the check passes, so the run does *not* fail
when the fault side strictly contains the incident side. -/
theorem c3_counterexample :
    faultCoverageCheckOk ["R1"] ["R1", "R2"] = true ∧
    (∀ i, i ∈ (["R1"] : List String) → i ∈ (["R1", "R2"] : List String)) ∧
    "R2" ∈ (["R1", "R2"] : List String) ∧ "R2" ∉ (["R1"] : List String) := by
  refine ⟨by decide, by decide, by decide, by decide⟩

/-- **C3 amended.** The final check only requires the output identifiers to be
*contained in* the fault-estimate identifiers: it passes exactly when every
output report id has a fault estimate, and fault tables may cover extra
(out-of-window) identifiers. -/
theorem c3_amended_subset_check (incidentIds faultIds : List String) :
    faultCoverageCheckOk incidentIds faultIds
      = incidentIds.all (fun i => faultIds.contains i) := by
  rw [faultCoverageCheckOk, filter_not_contains_isEmpty]

theorem alookup_assocSet_self {α β : Type} [DecidableEq α] (k : α) (v : β) :
    ∀ (l : List (α × β)), alookup k (assocSet l k v) = some v := by
  intro l
  induction l with
  | nil => simp [assocSet, alookup]
  | cons p t ih =>
    obtain ⟨k₁, v₁⟩ := p
    rw [assocSet]
    split
    · rw [alookup, if_pos rfl]
    · rename_i hne
      rw [alookup, if_neg hne, ih]

theorem alookup_bump_none {key : String × String} {q : Bool} :
    ∀ {counts : Counts}, alookup key counts = none →
      alookup key (bump key q counts) = some (if q then 1 else 0, 1) := by
  intro counts
  induction counts with
  | nil => intro _; simp [bump, alookup]
  | cons e t ih =>
    obtain ⟨k, f, tot⟩ := e
    intro h
    rw [alookup] at h
    by_cases hk : k = key
    · rw [if_pos hk] at h
      cases h
    · rw [if_neg hk] at h
      rw [bump, if_neg hk, alookup, if_neg hk]
      exact ih h

theorem alookup_bump_some {key : String × String} {q : Bool} {f tot : ℕ} :
    ∀ {counts : Counts}, alookup key counts = some (f, tot) →
      alookup key (bump key q counts) = some (if q then f + 1 else f, tot + 1) := by
  intro counts
  induction counts with
  | nil => intro h; simp [alookup] at h
  | cons e t ih =>
    obtain ⟨k, f₁, t₁⟩ := e
    intro h
    rw [alookup] at h
    by_cases hk : k = key
    · rw [if_pos hk] at h
      cases h
      rw [bump, if_pos hk, alookup, if_pos hk]
    · rw [if_neg hk] at h
      rw [bump, if_neg hk, alookup, if_neg hk]
      exact ih h

theorem alookup_bump_ne {key k : String × String} {q : Bool} (hne : k ≠ key) :
    ∀ {counts : Counts}, alookup k (bump key q counts) = alookup k counts := by
  intro counts
  induction counts with
  | nil =>
    have hne₁ : ¬(key = k) := fun h => hne h.symm
    show alookup k [(key, ((if q then 1 else 0), 1))] = alookup k []
    simp [alookup, hne₁]
  | cons e t ih =>
    obtain ⟨k₁, f₁, t₁⟩ := e
    by_cases hk : k₁ = key
    · rw [bump, if_pos hk, alookup, alookup]
      have hne₁ : ¬(k₁ = k) := by rw [hk]; intro hh; exact hne hh.symm
      rw [if_neg (by rw [hk] at hne₁ ⊢; exact hne₁), if_neg hne₁]
    · rw [bump, if_neg hk, alookup, alookup]
      split
      · rfl
      · exact ih

theorem tallyUpd_eq_some {counts : Counts} {rec : CovRec} {counts₁ : Counts}
    (h : tallyUpd counts rec = some counts₁) :
    counts₁ = bump (rec.company, rec.month) (QUICK_TYPES.contains rec.reportType) counts := by
  rw [tallyUpd] at h
  split_ifs at h
  cases h
  rfl

theorem countsWF_bump {counts : Counts} {key : String × String} {q : Bool}
    (h : countsWF counts) : countsWF (bump key q counts) := by
  intro k f tot hk
  by_cases hkey : k = key
  · subst hkey
    cases hlk : alookup k counts with
    | none =>
      rw [alookup_bump_none hlk] at hk
      cases hk
      split <;> omega
    | some v =>
      obtain ⟨f₁, t₁⟩ := v
      have hle := h _ _ _ hlk
      rw [alookup_bump_some hlk] at hk
      cases hk
      split <;> omega
  · rw [alookup_bump_ne hkey] at hk
    exact h _ _ _ hk

theorem tallyAux_wf :
    ∀ {recs : List CovRec} {acc counts : Counts}, countsWF acc →
      tallyAux acc recs = some counts → countsWF counts := by
  intro recs
  induction recs with
  | nil =>
    intro acc counts h hc
    rw [tallyAux] at hc
    cases hc
    exact h
  | cons rec t ih =>
    intro acc counts h hc
    rw [tallyAux] at hc
    cases hu : tallyUpd acc rec with
    | none => rw [hu] at hc; cases hc
    | some acc₁ =>
      rw [hu] at hc
      have hb := tallyUpd_eq_some hu
      subst hb
      exact ih (countsWF_bump h) hc

theorem bump_preserves_lt {key k : String × String} {q : Bool} {f tot : ℕ}
    {counts : Counts} (hlk : alookup k counts = some (f, tot)) (hlt : f < tot) :
    ∃ f₁ t₁, alookup k (bump key q counts) = some (f₁, t₁) ∧ f₁ < t₁ := by
  by_cases hk : k = key
  · subst hk
    rw [alookup_bump_some hlk]
    exact ⟨_, _, rfl, by split <;> omega⟩
  · rw [alookup_bump_ne hk]
    exact ⟨f, tot, hlk, hlt⟩

theorem tallyAux_preserves_lt :
    ∀ {recs : List CovRec} {acc counts : Counts} {k : String × String} {f tot : ℕ},
      alookup k acc = some (f, tot) → f < tot → tallyAux acc recs = some counts →
      ∃ f₁ t₁, alookup k counts = some (f₁, t₁) ∧ f₁ < t₁ := by
  intro recs
  induction recs with
  | nil =>
    intro acc counts k f tot hlk hlt hc
    rw [tallyAux] at hc
    cases hc
    exact ⟨f, tot, hlk, hlt⟩
  | cons rec t ih =>
    intro acc counts k f tot hlk hlt hc
    rw [tallyAux] at hc
    cases hu : tallyUpd acc rec with
    | none => rw [hu] at hc; cases hc
    | some acc₁ =>
      rw [hu] at hc
      have hb := tallyUpd_eq_some hu
      subst hb
      obtain ⟨f₁, t₁, hlk₁, hlt₁⟩ := bump_preserves_lt hlk hlt
      exact ih hlk₁ hlt₁ hc

theorem tallyAux_monthly :
    ∀ {recs : List CovRec} {acc counts : Counts} {rec : CovRec},
      rec ∈ recs → rec.reportType = "Monthly" → countsWF acc →
      tallyAux acc recs = some counts →
      ∃ f tot, alookup (rec.company, rec.month) counts = some (f, tot) ∧ f < tot := by
  intro recs
  induction recs with
  | nil =>
    intro acc counts rec hmem
    cases hmem
  | cons r t ih =>
    intro acc counts rec hmem hmt hwf htl
    rw [tallyAux] at htl
    cases hu : tallyUpd acc r with
    | none => rw [hu] at htl; cases htl
    | some acc₁ =>
      rw [hu] at htl
      have hb := tallyUpd_eq_some hu
      subst hb
      rcases List.mem_cons.mp hmem with heq | hmem₁
      · subst heq
        have hq : QUICK_TYPES.contains rec.reportType = false := by
          rw [hmt]; decide
        rw [hq] at htl
        cases hlk : alookup (rec.company, rec.month) acc with
        | none =>
          have h1 := alookup_bump_none (q := false) hlk
          simp only [Bool.false_eq_true, if_false] at h1
          exact tallyAux_preserves_lt h1 (by omega) htl
        | some v =>
          obtain ⟨f₁, t₁⟩ := v
          have hle := hwf _ _ _ hlk
          have h1 := alookup_bump_some (q := false) hlk
          simp only [Bool.false_eq_true, if_false] at h1
          exact tallyAux_preserves_lt h1 (by omega) htl
      · exact ih hmem₁ hmt (countsWF_bump hwf) htl

theorem alookup_none_not_mem {α β : Type} [DecidableEq α] {k : α} :
    ∀ {l : List (α × β)}, alookup k l = none → k ∉ l.map (fun e => e.1) := by
  intro l
  induction l with
  | nil => intro _ h; simp at h
  | cons p t ih =>
    obtain ⟨k₁, v₁⟩ := p
    intro h hmem
    rw [alookup] at h
    by_cases hk : k₁ = k
    · rw [if_pos hk] at h; cases h
    · rw [if_neg hk] at h
      rcases List.mem_cons.mp hmem with heq | hmem₁
      · exact hk heq.symm
      · exact ih h hmem₁

theorem bump_keys_existing {key : String × String} {q : Bool} :
    ∀ {counts : Counts}, (alookup key counts).isSome = true →
      (bump key q counts).map (fun e => e.1) = counts.map (fun e => e.1) := by
  intro counts
  induction counts with
  | nil => intro h; simp [alookup] at h
  | cons e t ih =>
    obtain ⟨k, f₁, t₁⟩ := e
    intro h
    rw [alookup] at h
    by_cases hk : k = key
    · rw [bump, if_pos hk]
      simp [hk]
    · rw [if_neg hk] at h
      rw [bump, if_neg hk]
      simp only [List.map_cons]
      rw [ih h]

theorem bump_keys_new {key : String × String} {q : Bool} :
    ∀ {counts : Counts}, alookup key counts = none →
      (bump key q counts).map (fun e => e.1) = counts.map (fun e => e.1) ++ [key] := by
  intro counts
  induction counts with
  | nil => intro _; simp [bump]
  | cons e t ih =>
    obtain ⟨k, f₁, t₁⟩ := e
    intro h
    rw [alookup] at h
    by_cases hk : k = key
    · rw [if_pos hk] at h; cases h
    · rw [if_neg hk] at h
      rw [bump, if_neg hk]
      simp only [List.map_cons, List.cons_append]
      rw [ih h]

theorem keysNodup_bump {key : String × String} {q : Bool} {counts : Counts}
    (h : keysNodup counts) : keysNodup (bump key q counts) := by
  unfold keysNodup at h ⊢
  cases hlk : alookup key counts with
  | some v =>
    rw [bump_keys_existing (by rw [hlk]; rfl)]
    exact h
  | none =>
    rw [bump_keys_new hlk]
    have hnm := alookup_none_not_mem hlk
    simp [List.nodup_append, h, hnm]

theorem tallyAux_keysNodup :
    ∀ {recs : List CovRec} {acc counts : Counts}, keysNodup acc →
      tallyAux acc recs = some counts → keysNodup counts := by
  intro recs
  induction recs with
  | nil =>
    intro acc counts h hc
    rw [tallyAux] at hc
    cases hc
    exact h
  | cons rec t ih =>
    intro acc counts h hc
    rw [tallyAux] at hc
    cases hu : tallyUpd acc rec with
    | none => rw [hu] at hc; cases hc
    | some acc₁ =>
      rw [hu] at hc
      have hb := tallyUpd_eq_some hu
      subst hb
      exact ih (keysNodup_bump h) hc

theorem lmhmAux_skip {c : String} :
    ∀ (l : Counts) (acc : List (String × Bool)),
      (c, lastMonth) ∉ l.map (fun e => e.1) →
      alookup c (l.foldl lmhmStep acc) = alookup c acc := by
  intro l
  induction l with
  | nil => intro acc _; rfl
  | cons e t ih =>
    intro acc hnm
    rw [List.foldl_cons]
    have hnm₁ : (c, lastMonth) ∉ t.map (fun e => e.1) := by
      intro hmem; exact hnm (List.mem_cons_of_mem _ hmem)
    rw [ih _ hnm₁]
    rw [lmhmStep]
    split
    · rename_i hmo
      have hco : e.1.1 ≠ c := by
        intro hco
        apply hnm
        apply List.mem_map.mpr
        exact ⟨e, List.mem_cons_self _ _, Prod.ext hco hmo⟩
      exact alookup_assocSet_ne _ hco acc
    · rfl

theorem lmhm_found_aux {c : String} {f tot : ℕ} :
    ∀ (l : Counts) (acc : List (String × Bool)),
      (l.map (fun e => e.1)).Nodup →
      alookup (c, lastMonth) l = some (f, tot) →
      alookup c (l.foldl lmhmStep acc) = some (decide (tot > f)) := by
  intro l
  induction l with
  | nil => intro acc _ hlk; simp [alookup] at hlk
  | cons e t ih =>
    intro acc hnd hlk
    rw [alookup] at hlk
    rw [List.foldl_cons]
    by_cases he : e.1 = (c, lastMonth)
    · rw [if_pos he] at hlk
      have hkeys : (c, lastMonth) ∉ t.map (fun e => e.1) := by
        rw [← he]
        exact (List.nodup_cons.mp (by simpa using hnd)).1
      rw [lmhmAux_skip t _ hkeys]
      have hmo : e.1.2 = lastMonth := by rw [he]
      have hco : e.1.1 = c := by rw [he]
      rw [lmhmStep, if_pos hmo, hco]
      have hval : e.2 = (f, tot) := by injection hlk
      rw [hval]
      exact alookup_assocSet_self c _ acc
    · rw [if_neg he] at hlk
      exact ih (lmhmStep acc e) (List.nodup_cons.mp (by simpa using hnd)).2 hlk

theorem lmhm_found {c : String} {f tot : ℕ} {counts : Counts}
    (hnd : keysNodup counts)
    (hlk : alookup (c, lastMonth) counts = some (f, tot)) :
    alookup c (lastMonthHasMonthly counts) = some (decide (tot > f)) :=
  lmhm_found_aux counts [] hnd hlk

theorem mem_insertStr {a x : String} :
    ∀ {l : List String}, a ∈ insertStr x l ↔ a = x ∨ a ∈ l := by
  intro l
  induction l with
  | nil => simp [insertStr]
  | cons y t ih =>
    rw [insertStr]
    split
    · simp
    · rw [List.mem_cons, List.mem_cons, ih]
      tauto

theorem mem_sortStrings {a : String} :
    ∀ {l : List String}, a ∈ sortStrings l ↔ a ∈ l := by
  intro l
  induction l with
  | nil => simp [sortStrings]
  | cons x t ih =>
    rw [sortStrings, List.foldr_cons, mem_insertStr]
    rw [sortStrings] at ih
    rw [ih, List.mem_cons]

theorem mem_dedupStrAux {a : String} :
    ∀ {l seen : List String}, a ∈ dedupStrAux seen l ↔ (a ∈ l ∧ a ∉ seen) := by
  intro l
  induction l with
  | nil => intro seen; simp [dedupStrAux]
  | cons x t ih =>
    intro seen
    rw [dedupStrAux]
    by_cases hx : x ∈ seen
    · rw [if_pos (by simp [List.contains, List.elem_eq_mem, hx])]
      rw [ih, List.mem_cons]
      constructor
      · rintro ⟨hm, hs⟩
        exact ⟨Or.inr hm, hs⟩
      · rintro ⟨hm | hm, hs⟩
        · subst hm; exact absurd hx hs
        · exact ⟨hm, hs⟩
    · rw [if_neg (by simp [List.contains, List.elem_eq_mem, hx])]
      rw [List.mem_cons, List.mem_cons, ih]
      constructor
      · rintro (heq | ⟨hm, hs⟩)
        · subst heq
          exact ⟨Or.inl rfl, hx⟩
        · exact ⟨Or.inr hm, fun hc => hs (List.mem_cons_of_mem _ hc)⟩
      · rintro ⟨heq | hm, hs⟩
        · exact Or.inl heq
        · by_cases hax : a = x
          · exact Or.inl hax
          · exact Or.inr ⟨hm, fun hc => (List.mem_cons.mp hc).elim hax hs⟩

theorem mem_companies {counts : Counts} {k : String × String} {v : ℕ × ℕ}
    (h : alookup k counts = some v) : k.1 ∈ companies counts := by
  rw [companies, mem_sortStrings, dedupStr, mem_dedupStrAux]
  refine ⟨?_, by simp⟩
  exact List.mem_map.mpr ⟨(k, v), alookup_mem h, rfl⟩

theorem buildResult_alookup {counts : Counts} {tr : ℚ × ℚ × ℚ} :
    ∀ {l : List String} {res} {c : String}, buildResult counts l = some res →
      c ∈ l → tripleFor counts c = some tr →
      alookup (c, lastMonth) res = some tr := by
  intro l
  induction l with
  | nil => intro res c _ hc; cases hc
  | cons co t ih =>
    intro res c h hc htr
    rw [buildResult] at h
    cases hco : tripleFor counts co with
    | none => rw [hco] at h; cases h
    | some tr₀ =>
      rw [hco] at h
      cases hbr : buildResult counts t with
      | none => rw [hbr] at h; cases h
      | some res₁ =>
        rw [hbr] at h
        simp only [Option.map_some'] at h
        cases h
        by_cases hcc : co = c
        · subst hcc
          rw [alookup, if_pos rfl]
          rw [hco] at htr
          injection htr with htr₁
          rw [htr₁]
        · have hne : ¬((co, lastMonth) = (c, lastMonth)) := by
            intro hh
            exact hcc (congrArg Prod.fst hh)
          rw [alookup, if_neg hne]
          rcases List.mem_cons.mp hc with heq | hmem
          · exact absurd heq.symm hcc
          · exact ih hbr hmem htr

/-- **C6.** When the final window month is structurally incomplete, every
company with at least one incident attributed to the final month whose
original (minimum-version) report type is the periodic "Monthly" type is an
early filer: the coverage estimator assigns it the full-coverage triple
(1, 1, 1), regardless of the company's historical quick-filing ratios. -/
theorem c6_early_filer_full_coverage (rows : List NRow)
    (res : List ((String × String) × (ℚ × ℚ × ℚ)))
    (entries : List (String × CovRec)) (c : String) (rec : CovRec)
    (hinc : lastMonthIncomplete rows = some true)
    (hded : dedupCov rows = some entries)
    (hres : incident_coverage rows = some res)
    (hrec : rec ∈ entries.map (fun e => e.2))
    (hc : rec.company = c) (hm : rec.month = lastMonth)
    (hmon : rec.reportType = "Monthly") :
    alookup (c, lastMonth) res = some (1, 1, 1) := by
  rw [incident_coverage] at hres
  split at hres
  · exact Option.noConfusion hres
  · rename_i hfalse
    rw [hinc] at hfalse
    simp at hfalse
  · split at hres
    · rename_i hnone
      rw [hded] at hnone
      exact Option.noConfusion hnone
    · rename_i entries₁ hded₁
      rw [hded] at hded₁
      injection hded₁ with hded₂
      subst hded₂
      split at hres
      · exact Option.noConfusion hres
      · rename_i counts htc
        have hwf0 : countsWF [] := by intro k f t h; simp [alookup] at h
        have hnd0 : keysNodup ([] : Counts) := by simp [keysNodup]
        obtain ⟨f, tot, hlk, hlt⟩ := tallyAux_monthly hrec hmon hwf0 htc
        rw [hc, hm] at hlk
        have hnd : keysNodup counts := tallyAux_keysNodup hnd0 htc
        have hlmhm := lmhm_found hnd hlk
        have htrip : tripleFor counts c = some (1, 1, 1) := by
          rw [tripleFor, alookupD, hlmhm]
          rw [if_pos (by simpa using hlt)]
        have hcm : c ∈ companies counts := by
          have := mem_companies hlk
          simpa using this
        exact buildResult_alookup hres hcm htrip

/-- Witness: C6 applied to the concrete single-incident input `c6rows`. -/
theorem c6_early_filer_witness :
    alookup ("Waymo", lastMonth)
        [(("Waymo", "2026-01"), ((1 : ℚ), (1 : ℚ), (1 : ℚ)))] = some (1, 1, 1) :=
  c6_early_filer_full_coverage c6rows
    [(("Waymo", "2026-01"), (1, 1, 1))]
    [("m1", ⟨1, 1, "Waymo", "2026-01", "Monthly"⟩)]
    "Waymo" ⟨1, 1, "Waymo", "2026-01", "Monthly"⟩
    (by decide) (by decide) (by decide) (by decide) rfl (by decide) rfl

theorem selRow_cases (o : Option NRow) (x : NRow) :
    ∃ sel, selRow o x = some sel ∧ x.reportVersion ≤ sel.reportVersion ∧
      (sel = x ∨ o = some sel) ∧
      (∀ c, o = some c → c.reportVersion ≤ sel.reportVersion) := by
  cases o with
  | none =>
    exact ⟨x, rfl, le_refl _, Or.inl rfl, fun c hc => Option.noConfusion hc⟩
  | some cur =>
    by_cases hv : x.reportVersion > cur.reportVersion
    · refine ⟨x, by rw [selRow, if_pos hv], le_refl _, Or.inl rfl, ?_⟩
      intro c hc
      injection hc with hc₁
      subst hc₁
      omega
    · refine ⟨cur, by rw [selRow, if_neg hv], by omega, Or.inr rfl, ?_⟩
      intro c hc
      injection hc with hc₁
      subst hc₁
      exact le_refl _

theorem selFold_spec :
    ∀ (l : List NRow) (o : Option NRow) (r : NRow), l.foldl selRow o = some r →
      (r ∈ l ∨ o = some r) ∧ (∀ x ∈ l, x.reportVersion ≤ r.reportVersion) ∧
        (∀ c, o = some c → c.reportVersion ≤ r.reportVersion) := by
  intro l
  induction l with
  | nil =>
    intro o r h
    rw [List.foldl_nil] at h
    refine ⟨Or.inr h, by simp, fun c hc => ?_⟩
    rw [h] at hc
    injection hc with hc₁
    rw [hc₁]
  | cons x t ih =>
    intro o r h
    rw [List.foldl_cons] at h
    obtain ⟨sel, hsel, hxle, hselor, hbound⟩ := selRow_cases o x
    rw [hsel] at h
    obtain ⟨hmem, hmax, hinit⟩ := ih (some sel) r h
    have hselr : sel.reportVersion ≤ r.reportVersion := hinit sel rfl
    refine ⟨?_, ?_, ?_⟩
    · rcases hmem with hm | hm
      · exact Or.inl (List.mem_cons_of_mem _ hm)
      · injection hm with hm₁
        subst hm₁
        rcases hselor with hs | hs
        · subst hs; exact Or.inl (List.mem_cons_self _ _)
        · exact Or.inr hs
    · intro y hy
      rcases List.mem_cons.mp hy with hy₁ | hy₁
      · subst hy₁; omega
      · exact hmax y hy₁
    · intro c hc
      have := hbound c hc
      omega

theorem selFold_eq_none :
    ∀ (l : List NRow) (o : Option NRow), l.foldl selRow o = none → o = none ∧ l = [] := by
  intro l
  induction l with
  | nil => intro o h; exact ⟨h, rfl⟩
  | cons x t ih =>
    intro o h
    rw [List.foldl_cons] at h
    obtain ⟨sel, hsel, -, -, -⟩ := selRow_cases o x
    rw [hsel] at h
    obtain ⟨hnone, -⟩ := ih (some sel) h
    exact Option.noConfusion hnone

theorem alookup_mainUpd (iid : String) (acc : List (String × NRow)) (r : NRow) :
    alookup iid (mainUpd acc r)
      = if r.sameIncidentId = iid then selRow (alookup iid acc) r
        else alookup iid acc := by
  by_cases hid : r.sameIncidentId = iid
  · rw [if_pos hid]
    subst hid
    cases hlk : alookup r.sameIncidentId acc with
    | none =>
      have hstep : mainUpd acc r = assocSet acc r.sameIncidentId r := by
        rw [mainUpd, hlk]
      rw [hstep, selRow, alookup_assocSet_self]
    | some cur =>
      have hstep : mainUpd acc r
          = if r.reportVersion > cur.reportVersion then assocSet acc r.sameIncidentId r
            else acc := by
        rw [mainUpd, hlk]
      rw [hstep, selRow]
      by_cases hv : r.reportVersion > cur.reportVersion
      · rw [if_pos hv, if_pos hv, alookup_assocSet_self]
      · rw [if_neg hv, if_neg hv, hlk]
  · rw [if_neg hid]
    cases hlk : alookup r.sameIncidentId acc with
    | none =>
      have hstep : mainUpd acc r = assocSet acc r.sameIncidentId r := by
        rw [mainUpd, hlk]
      rw [hstep]
      exact alookup_assocSet_ne _ hid _
    | some cur =>
      have hstep : mainUpd acc r
          = if r.reportVersion > cur.reportVersion then assocSet acc r.sameIncidentId r
            else acc := by
        rw [mainUpd, hlk]
      rw [hstep]
      split
      · exact alookup_assocSet_ne _ hid _
      · rfl

theorem dedupMain_group (iid : String) :
    ∀ (rows : List NRow) (acc : List (String × NRow)),
      alookup iid (rows.foldl mainUpd acc)
        = (rows.filter (fun r => r.sameIncidentId == iid)).foldl selRow (alookup iid acc) := by
  intro rows
  induction rows with
  | nil => intro acc; rfl
  | cons r t ih =>
    intro acc
    rw [List.foldl_cons, List.filter_cons, ih]
    by_cases hid : r.sameIncidentId = iid
    · rw [if_pos (by simpa using hid), List.foldl_cons, alookup_mainUpd, if_pos hid]
    · rw [if_neg (by simpa using hid), alookup_mainUpd, if_neg hid]

theorem pairwise_ver_eq {l : List NRow}
    (hp : l.Pairwise (fun a b => a.reportVersion ≠ b.reportVersion)) :
    ∀ {a b : NRow}, a ∈ l → b ∈ l → a.reportVersion = b.reportVersion → a = b := by
  induction l with
  | nil => intro a b ha; cases ha
  | cons x t ih =>
    obtain ⟨hx, hp₁⟩ := List.pairwise_cons.mp hp
    intro a b ha hb hv
    rcases List.mem_cons.mp ha with ha₁ | ha₁
    · rcases List.mem_cons.mp hb with hb₁ | hb₁
      · rw [ha₁, hb₁]
      · subst ha₁
        exact absurd hv (hx b hb₁)
    · rcases List.mem_cons.mp hb with hb₁ | hb₁
      · subst hb₁
        exact absurd hv.symm (hx a ha₁)
      · exact ih hp₁ ha₁ hb₁ hv

/-- **C5.** For rows sharing an incident identifier, under the precondition
that report versions within the group are pairwise distinct, the `main`
deduplicator selects the row with the maximum report version, and the
selection is invariant under any permutation of the input row sequence. -/
theorem c5_dedup_max_version_permutation_invariant
    (rows₁ rows₂ : List NRow) (iid : String)
    (hperm : rows₁.Perm rows₂)
    (hdist : (rows₁.filter (fun r => r.sameIncidentId == iid)).Pairwise
        (fun a b => a.reportVersion ≠ b.reportVersion)) :
    (∀ r, alookup iid (dedupMain rows₁) = some r →
        r ∈ rows₁.filter (fun r => r.sameIncidentId == iid) ∧
        ∀ x ∈ rows₁.filter (fun r => r.sameIncidentId == iid),
          x.reportVersion ≤ r.reportVersion) ∧
    alookup iid (dedupMain rows₁) = alookup iid (dedupMain rows₂) := by
  have h1 : alookup iid (dedupMain rows₁)
      = (rows₁.filter (fun r => r.sameIncidentId == iid)).foldl selRow none :=
    dedupMain_group iid rows₁ []
  have h2 : alookup iid (dedupMain rows₂)
      = (rows₂.filter (fun r => r.sameIncidentId == iid)).foldl selRow none :=
    dedupMain_group iid rows₂ []
  have hpf : (rows₁.filter (fun r => r.sameIncidentId == iid)).Perm
      (rows₂.filter (fun r => r.sameIncidentId == iid)) := hperm.filter _
  constructor
  · intro r hr
    rw [h1] at hr
    obtain ⟨hmem, hmax, -⟩ := selFold_spec _ none r hr
    rcases hmem with hm | hm
    · exact ⟨hm, hmax⟩
    · exact Option.noConfusion hm
  · rw [h1, h2]
    cases e₁ : (rows₁.filter (fun r => r.sameIncidentId == iid)).foldl selRow none with
    | none =>
      obtain ⟨-, hnil⟩ := selFold_eq_none _ _ e₁
      have hnil₂ : rows₂.filter (fun r => r.sameIncidentId == iid) = [] := by
        rw [hnil] at hpf
        exact hpf.symm.eq_nil
      rw [hnil₂]
      rfl
    | some r₁ =>
      cases e₂ : (rows₂.filter (fun r => r.sameIncidentId == iid)).foldl selRow none with
      | none =>
        obtain ⟨-, hnil⟩ := selFold_eq_none _ _ e₂
        rw [hnil] at hpf
        rw [hpf.eq_nil] at e₁
        exact Option.noConfusion e₁
      | some r₂ =>
        obtain ⟨hmem₁, hmax₁, -⟩ := selFold_spec _ none r₁ e₁
        obtain ⟨hmem₂, hmax₂, -⟩ := selFold_spec _ none r₂ e₂
        have hm₁ : r₁ ∈ rows₁.filter (fun r => r.sameIncidentId == iid) := by
          rcases hmem₁ with hm | hm
          · exact hm
          · exact Option.noConfusion hm
        have hm₂ : r₂ ∈ rows₁.filter (fun r => r.sameIncidentId == iid) := by
          rcases hmem₂ with hm | hm
          · exact hpf.symm.subset hm
          · exact Option.noConfusion hm
        have hle₁ : r₁.reportVersion ≤ r₂.reportVersion :=
          hmax₂ r₁ (hpf.subset hm₁)
        have hle₂ : r₂.reportVersion ≤ r₁.reportVersion := hmax₁ r₂ hm₂
        have hveq : r₁.reportVersion = r₂.reportVersion := le_antisymm hle₁ hle₂
        rw [pairwise_ver_eq hdist hm₁ hm₂ hveq]

/-- Witness: C5 applied to the two orders of a two-row incident group with
versions 1 and 2. -/
theorem c5_dedup_witness :
    alookup "X" (dedupMain c5rows1) = alookup "X" (dedupMain c5rows2) :=
  (c5_dedup_max_version_permutation_invariant c5rows1 c5rows2 "X"
    (List.Perm.swap c5rowB c5rowA []) (by decide)).2

theorem fillStep_ne {row : String → Option String} {p : String × String} {k : String}
    (h : k ≠ p.2) : fillStep row p k = row k := if_neg h

theorem fillStep_self {row : String → Option String} {p : String × String} :
    fillStep row p p.2 = fillVal (row p.2) (row p.1) := if_pos rfl

theorem fillList_preserve {k : String} :
    ∀ {l : List (String × String)} {row}, k ∉ l.map (fun p => p.2) →
      fillList l row k = row k := by
  intro l
  induction l with
  | nil => intro row _; rfl
  | cons p t ih =>
    intro row hk
    rw [fillList]
    have hk₂ : k ≠ p.2 := by
      intro hh
      exact hk (List.mem_map.mpr ⟨p, List.mem_cons_self _ _, hh.symm⟩)
    have hkt : k ∉ t.map (fun p => p.2) := by
      intro hh
      rcases List.mem_map.mp hh with ⟨q, hq, hq₂⟩
      exact hk (List.mem_map.mpr ⟨q, List.mem_cons_of_mem _ hq, hq₂⟩)
    rw [ih hkt, fillStep_ne hk₂]

theorem fillVal_absorb (cur archive : Option String) :
    fillVal (fillVal cur archive) archive = fillVal cur archive := by
  cases cur <;> cases archive <;> rfl

theorem fillList_idem :
    ∀ (l : List (String × String)) (row : String → Option String),
      (l.map (fun p => p.2)).Nodup →
      (∀ p ∈ l, ∀ q ∈ l, p.2 ≠ q.1) →
      fillList l (fillList l row) = fillList l row := by
  intro l
  induction l with
  | nil => intro row _ _; rfl
  | cons p t ih =>
    intro row hnd hdisj
    have hnd₁ : (t.map (fun p => p.2)).Nodup := (List.nodup_cons.mp hnd).2
    have hndm : p.2 ∉ t.map (fun p => p.2) := (List.nodup_cons.mp hnd).1
    have hdisj₁ : ∀ q ∈ t, ∀ q₁ ∈ t, q.2 ≠ q₁.1 := fun q hq q₁ hq₁ =>
      hdisj q (List.mem_cons_of_mem _ hq) q₁ (List.mem_cons_of_mem _ hq₁)
    have hp21 : p.2 ≠ p.1 :=
      hdisj p (List.mem_cons_self _ _) p (List.mem_cons_self _ _)
    have hp1t : p.1 ∉ t.map (fun q => q.2) := by
      intro hh
      rcases List.mem_map.mp hh with ⟨q, hq, hq₂⟩
      exact hdisj q (List.mem_cons_of_mem _ hq) p (List.mem_cons_self _ _) hq₂
    have hkey : fillStep (fillList t (fillStep row p)) p = fillList t (fillStep row p) := by
      funext k
      by_cases hk : k = p.2
      · subst hk
        rw [fillStep_self]
        rw [fillList_preserve hndm, fillList_preserve hp1t]
        rw [fillStep_self, fillStep_ne (fun hh => hp21 hh.symm)]
        exact fillVal_absorb _ _
      · exact fillStep_ne hk
    rw [fillList, fillList, hkey]
    exact ih (fillStep row p) hnd₁ hdisj₁

theorem fillList_mem_preserve :
    ∀ (l : List (String × String)) (row : String → Option String) (k v : String),
      row k = some v → fillList l row k = some v := by
  intro l
  induction l with
  | nil => intro row k v h; exact h
  | cons p t ih =>
    intro row k v h
    rw [fillList]
    apply ih
    by_cases hk : k = p.2
    · subst hk
      rw [fillStep_self, h]
      rfl
    · rw [fillStep_ne hk]
      exact h

/-- **C9.** The schema reconciler is idempotent — applying it to its own
output (in particular to an already-canonical row) changes nothing — and it
never overwrites a field already present in the input row: aliases only fill
absent canonical fields. -/
theorem c9_reconciler_idempotent_no_overwrite :
    (∀ row : String → Option String,
        normalizeArchiveRow (normalizeArchiveRow row) = normalizeArchiveRow row) ∧
    (∀ (row : String → Option String) (k v : String),
        row k = some v → normalizeArchiveRow row k = some v) := by
  constructor
  · intro row
    exact fillList_idem ARCHIVE_COLUMN_MAP row (by decide) (by decide)
  · intro row k v h
    exact fillList_mem_preserve ARCHIVE_COLUMN_MAP row k v h

/-- Witness: the reconciler leaves the already-present `City` value of the
concrete archive row `c9row` unchanged. -/
theorem c9_reconciler_witness :
    normalizeArchiveRow c9row "City" = some "Tempe" :=
  c9_reconciler_idempotent_no_overwrite.2 c9row "City" "Tempe" (by decide)

theorem rowErr_none_iff (i : ℕ) (r : RawRow) :
    (rowErr i r) = none ↔ rowOk r = true := by
  rw [rowOk, rowErr, rowErr]
  split_ifs <;> simp

theorem validateAux_all_ok :
    ∀ (rows : List RawRow) (i : ℕ),
      (∀ r ∈ rows, keepRow r = true → rowOk r = true) →
      validateAux i rows = .ok (rows.filter keepRow) := by
  intro rows
  induction rows with
  | nil => intro i _; rfl
  | cons r t ih =>
    intro i h
    rw [validateAux, List.filter_cons]
    by_cases hk : keepRow r
    · rw [if_pos hk, if_pos hk]
      have hok : rowErr i r = none :=
        (rowErr_none_iff i r).mpr (h r (List.mem_cons_self _ _) hk)
      rw [hok, ih (i + 1) (fun r₁ hr₁ => h r₁ (List.mem_cons_of_mem _ hr₁))]
    · rw [if_neg hk, if_neg (by simpa using hk)]
      exact ih (i + 1) (fun r₁ hr₁ => h r₁ (List.mem_cons_of_mem _ hr₁))

theorem validateAux_firstBad :
    ∀ (rows : List RawRow) (i j : ℕ) (r : RawRow) (e : VErr),
      firstBad i rows = some (j, r) → rowErr j r = some e →
      validateAux i rows = .error e := by
  intro rows
  induction rows with
  | nil => intro i j r e h; exact Option.noConfusion h
  | cons r₁ t ih =>
    intro i j r e hfb herr
    rw [firstBad] at hfb
    rw [validateAux]
    split at hfb
    · rename_i hcond
      injection hfb with hfb₁
      injection hfb₁ with hj hr
      subst hj
      subst hr
      rw [if_pos hcond.1, herr]
    · rename_i hcond
      by_cases hk : keepRow r₁
      · rw [if_pos hk]
        cases he : rowErr i r₁ with
        | some e₁ =>
          exact absurd ⟨hk, by rw [he]; rfl⟩ hcond
        | none =>
          rw [ih (i + 1) j r e hfb herr]
      · rw [if_neg hk]
        exact ih (i + 1) j r e hfb herr

theorem firstBad_of_exists_bad :
    ∀ (rows : List RawRow) (i : ℕ),
      (∃ r ∈ rows, keepRow r = true ∧ rowOk r = false) →
      ∃ j r e, firstBad i rows = some (j, r) ∧ rowErr j r = some e := by
  intro rows
  induction rows with
  | nil =>
    intro i h
    obtain ⟨r, hr, -⟩ := h
    cases hr
  | cons r₁ t ih =>
    intro i h
    rw [firstBad]
    by_cases hcond : keepRow r₁ = true ∧ (rowErr i r₁).isSome = true
    · rw [if_pos hcond]
      cases he : rowErr i r₁ with
      | none => rw [he] at hcond; exact absurd hcond.2 (by simp)
      | some e => exact ⟨i, r₁, e, rfl, he⟩
    · rw [if_neg hcond]
      obtain ⟨r, hr, hkeep, hbad⟩ := h
      rcases List.mem_cons.mp hr with heq | hmem
      · subst heq
        have : (rowErr i r).isSome = true := by
          cases he : rowErr i r with
          | none => exact absurd ((rowErr_none_iff i r).mp he) (by rw [hbad]; simp)
          | some e => rfl
        exact absurd ⟨hkeep, this⟩ hcond
      · exact ih (i + 1) ⟨r, hmem, hkeep, hbad⟩

/-- **C8.** Placeholder rows (empty incident identifier or empty incident
date) are dropped silently: when every kept row is valid the run succeeds and
returns exactly the kept rows, whatever the dropped rows contain.  A kept row
whose report type, driver/operator type, or reporting entity falls outside the
fixed allow-lists makes the run abort with the first failing row's diagnostic,
and that diagnostic carries the row's enumeration index, the observed value,
and the sorted expected allow-list. -/
theorem c8_validation (rows : List RawRow) :
    ((∀ r ∈ rows, keepRow r = true → rowOk r = true) →
        validateRows rows = .ok (rows.filter keepRow)) ∧
    (∀ (i : ℕ) (r : RawRow) (e : VErr), firstBad 0 rows = some (i, r) →
        rowErr i r = some e → validateRows rows = .error e) ∧
    ((∃ r ∈ rows, keepRow r = true ∧ rowOk r = false) →
        ∃ e, validateRows rows = .error e) ∧
    (∀ (i : ℕ) (r : RawRow),
        pyStrip r.reportType ∉ EXPECTED_REPORT_TYPES →
        rowErr i r = some ⟨"unexpected Report Type", i, pyStrip r.reportType,
          sortStrings EXPECTED_REPORT_TYPES⟩) ∧
    (∀ (i : ℕ) (r : RawRow),
        pyStrip r.reportType ∈ EXPECTED_REPORT_TYPES →
        pyStrip r.driverOperatorType ∉ EXPECTED_DRIVER_TYPES →
        rowErr i r = some ⟨"unexpected Driver / Operator Type", i,
          pyStrip r.driverOperatorType, sortStrings EXPECTED_DRIVER_TYPES⟩) ∧
    (∀ (i : ℕ) (r : RawRow),
        pyStrip r.reportType ∈ EXPECTED_REPORT_TYPES →
        pyStrip r.driverOperatorType ∈ EXPECTED_DRIVER_TYPES →
        pyStrip r.reportingEntity ∉ EXPECTED_COMPANIES →
        rowErr i r = some ⟨"unexpected Reporting Entity", i,
          pyStrip r.reportingEntity, sortStrings EXPECTED_COMPANIES⟩) := by
  refine ⟨?_, ?_, ?_, ?_, ?_, ?_⟩
  · exact validateAux_all_ok rows 0
  · exact fun i r e h he => validateAux_firstBad rows 0 i r e h he
  · intro h
    obtain ⟨j, r, e, hfb, herr⟩ := firstBad_of_exists_bad rows 0 h
    exact ⟨e, validateAux_firstBad rows 0 j r e hfb herr⟩
  · intro i r hrt
    rw [rowErr, if_pos (by simp [hrt])]
  · intro i r hrt hdt
    rw [rowErr, if_neg (by simp [hrt]), if_pos (by simp [hdt])]
  · intro i r hrt hdt hco
    rw [rowErr, if_neg (by simp [hrt]), if_neg (by simp [hdt]),
      if_pos (by simp [hco])]

/-- Witness: C8 applied to concrete inputs — a placeholder row with invalid
categorical fields is dropped silently and the valid row survives, while a
kept row with the unrecognized report type "Weekly" aborts the run with the
full diagnostic. -/
theorem c8_validation_witness :
    validateRows c8rows = .ok [c8goodRow] ∧
    validateRows c8badRows = .error ⟨"unexpected Report Type", 1, "Weekly",
      sortStrings EXPECTED_REPORT_TYPES⟩ := by
  constructor
  · have h := (c8_validation c8rows).1 (by decide)
    rw [h, show c8rows.filter keepRow = [c8goodRow] from by decide]
  · exact (c8_validation c8badRows).2.1 1 c8badRow _ (by decide) (by decide)

theorem tallyUpd_quick (co mo : String) (counts : Counts) :
    tallyUpd counts ⟨1, 1, co, mo, "5-Day"⟩ = some (bump (co, mo) true counts) := rfl

theorem tallyUpd_monthly (co mo : String) (counts : Counts) :
    tallyUpd counts ⟨1, 1, co, mo, "Monthly"⟩ = some (bump (co, mo) false counts) := rfl

theorem bump_singleton_true (key : String × String) (f t : ℕ) :
    bump key true [(key, (f, t))] = [(key, (f + 1, t + 1))] := by
  rw [bump, if_pos rfl]
  simp

theorem bump_singleton_false (key : String × String) (f t : ℕ) :
    bump key false [(key, (f, t))] = [(key, (f, t + 1))] := by
  rw [bump, if_pos rfl]
  simp

theorem tally_replicate_quick (co mo : String) :
    ∀ (n f t : ℕ),
      tallyAux [((co, mo), (f, t))] (List.replicate n ⟨1, 1, co, mo, "5-Day"⟩)
        = some [((co, mo), (f + n, t + n))] := by
  intro n
  induction n with
  | zero => intro f t; simp [tallyAux]
  | succ n ih =>
    intro f t
    rw [List.replicate_succ, tallyAux, tallyUpd_quick, bump_singleton_true]
    have h := ih (f + 1) (t + 1)
    rw [show f + 1 + n = f + (n + 1) from by omega,
      show t + 1 + n = t + (n + 1) from by omega] at h
    exact h

theorem tally_replicate_monthly (co mo : String) :
    ∀ (n f t : ℕ),
      tallyAux [((co, mo), (f, t))] (List.replicate n ⟨1, 1, co, mo, "Monthly"⟩)
        = some [((co, mo), (f, t + n))] := by
  intro n
  induction n with
  | zero => intro f t; simp [tallyAux]
  | succ n ih =>
    intro f t
    rw [List.replicate_succ, tallyAux, tallyUpd_monthly, bump_singleton_false]
    have h := ih f (t + 1)
    rw [show t + 1 + n = t + (n + 1) from by omega] at h
    exact h

/-- The C4 counterexample tally is realizable: it is exactly the tally of one
originally-quick incident record plus 99999 originally-Monthly records of the
same company-month. -/
theorem c4cex_realizable :
    tallyCounts (⟨1, 1, "A", "2025-06", "5-Day"⟩
        :: List.replicate 99999 (⟨1, 1, "A", "2025-06", "Monthly"⟩ : CovRec))
      = some c4cex := by
  rw [tallyCounts, tallyAux, tallyUpd_quick]
  have h := tally_replicate_monthly "A" "2025-06" 99999 1 1
  rw [show (1 : ℕ) + 99999 = 100000 from by norm_num] at h
  rw [show bump ("A", "2025-06") true [] = [(("A", "2025-06"), (1, 1))] from rfl]
  exact h

/-- The C10 counterexample tally is realizable: it is exactly the tally of one
originally-Monthly incident record plus 99999 originally-quick records of the
same company-month. -/
theorem c10cex_realizable :
    tallyCounts (⟨1, 1, "A", "2025-06", "Monthly"⟩
        :: List.replicate 99999 (⟨1, 1, "A", "2025-06", "5-Day"⟩ : CovRec))
      = some c10cex := by
  rw [tallyCounts, tallyAux, tallyUpd_monthly]
  have h := tally_replicate_quick "A" "2025-06" 99999 0 1
  rw [show (0 : ℕ) + 99999 = 99999 from by norm_num,
    show (1 : ℕ) + 99999 = 100000 from by norm_num] at h
  rw [show bump ("A", "2025-06") false [] = [(("A", "2025-06"), (0, 1))] from rfl]
  exact h

end Crashla
